import Mathlib

/-!
# Verification of the card scanner's scoring and disambiguation engine

Shallow embedding of `scanner_app.py` (the `scan_card` request handler and its
helpers `clean_text` and `get_full_card_details`) together with the query-side
pieces of `pokemon_clip_embeddings.py` that the scan consults
(`process_image` normalisation, `search_similar_cards` dot-product similarity).

Python dynamic values are embedded as follows: a dict field that may be absent
becomes an `Option`; `dict.get(k, d)` becomes `Option.getD`; Python's
`str(x)` coercion applied to an optional value renders `None` as `"None"`;
strings are Lean `String`s and `a in b` on strings is the infix test on the
underlying character lists.  Floating point vectors are modelled over `ℝ`.
-/

namespace CatchThemAll

/-- One named sub-attribute of a card (an entry of the `attacks` list).
`attack.get('name', '')` in the source reads an optional `name` field. -/
structure Attack where
  name : Option String
deriving DecidableEq, Repr

/-- The `set` sub-dictionary of a card; the scan only reads
`set.get('printedTotal')`, an optional integer. -/
structure CardSet where
  printedTotal : Option Nat
deriving DecidableEq, Repr

/-- A catalog entry from `processor.all_cards`.  `id` is accessed
unconditionally (`card['id']`); every other field is read through `.get`
and hence optional. -/
structure Card where
  id : String
  name : Option String
  number : Option String
  cardSet : Option CardSet
  attacks : Option (List Attack)
deriving DecidableEq, Repr

/-- One entry of the serving search index.  In the source the index is a pair
of parallel arrays `search_index['metadata']` / `search_index['embeddings']`
indexed by the same position `i` (built that way by `create_search_index`);
we embed the zipped form, keeping the only metadata field the scan reads
(`card_id`) next to the entry's stored vector. -/
structure IndexEntry where
  card_id : String
  embedding : List ℝ

/-- Python `str(x)` on an optional string: `str(None) = "None"`, a string
renders as itself. -/
def pyStrOfOptString : Option String → String
  | none => "None"
  | some s => s

/-- Python `str(x)` on an optional integer: `str(None) = "None"`, an integer
renders with no leading zeros. -/
def pyStrOfOptNat : Option Nat → String
  | none => "None"
  | some n => toString n

/-- `clean_text` from `scanner_app.py`:
`re.sub(r'[^a-zA-Z0-9]', '', text).lower()` — keep only ASCII letters and
digits, then lowercase. -/
def clean_text (s : String) : String :=
  String.mk ((s.data.filter (fun c => c.isAlpha || c.isDigit)).map Char.toLower)

/-- Python's substring test `a in b` on strings: `a.data` occurs as a
contiguous infix of `b.data`. -/
def substrOf (a b : String) : Bool :=
  decide (a.data <:+: b.data)

/-- `get_full_card_details` from `scanner_app.py`: first catalog card whose
`id` equals the requested id, if any. -/
def get_full_card_details (card_id : String) (all_cards : List Card) : Option Card :=
  all_cards.find? (fun card => card.id == card_id)

/-! ## Text signal extraction (Stage 1 and 2 of `scan_card`) -/

/-- First-seen-order deduplication.  The source computes
`set([clean_text(t) for t in ocr_results])`; Python set iteration order is
unspecified, so we fix first-seen order (the subsequent sort is only by
length, and no scoring value depends on the order among equal-length
fragments). -/
def dedupFirst (l : List String) : List String :=
  l.foldl (fun acc x => if x ∈ acc then acc else acc ++ [x]) []

/-- Stable insertion step for a descending sort by a natural-number key:
`c` is placed before the first element whose key is `≤ key c`, i.e. after
every strictly greater key and before every equal key met later. -/
def insertDescBy {α : Type} (key : α → Nat) (c : α) : List α → List α
  | [] => [c]
  | d :: rest => if key d ≤ key c then c :: d :: rest else d :: insertDescBy key c rest

/-- Stable descending sort by a natural-number key.  This is extensionally
Python's stable `sorted(..., key=..., reverse=True)` / `list.sort(...,
reverse=True)`: descending by key, original order preserved among equal
keys. -/
def sortDescBy {α : Type} (key : α → Nat) : List α → List α
  | [] => []
  | c :: rest => insertDescBy key c (sortDescBy key rest)

/-- `detected_texts`: unique cleaned fragments sorted by descending length
(`sorted(..., key=len, reverse=True)`, a stable descending sort). -/
def detectedTexts (ocr : List String) : List String :=
  sortDescBy String.length (dedupFirst (ocr.map clean_text))

/-- ASCII whitespace as matched by the regex class `\s`. -/
def isPySpace (c : Char) : Bool :=
  c = ' ' || c = '\t' || c = '\n' || c = '\r' || c = '\x0b' || c = '\x0c'

/-- Try to match the regex `(\d+)\s*/\s*(\d+)` at the head of `l`.  On
success return the two captured digit strings and the remainder of the input
after the match.  Because the character classes `\d`, `\s` and `/` are
pairwise disjoint, the greedy maximal-munch reading is exactly the regex's
backtracking semantics. -/
def matchFractionAt (l : List Char) : Option ((String × String) × List Char) :=
  let num := l.takeWhile Char.isDigit
  if num.isEmpty then none
  else
    let r1 := l.dropWhile Char.isDigit
    let r2 := r1.dropWhile isPySpace
    match r2 with
    | '/' :: r3 =>
      let r4 := r3.dropWhile isPySpace
      let den := r4.takeWhile Char.isDigit
      if den.isEmpty then none
      else some ((String.mk num, String.mk den), r4.dropWhile Char.isDigit)
    | _ => none

/-- Left-to-right non-overlapping scan for `(\d+)\s*/\s*(\d+)` as performed
by `re.findall`: try to match at each position, and on success continue after
the end of the match.  The recursion is fuelled; every step consumes at least
one character, so fuel equal to the input length is always sufficient. -/
def extractFractionsAux : Nat → List Char → List (String × String)
  | 0, _ => []
  | _, [] => []
  | fuel + 1, c :: rest =>
    match matchFractionAt (c :: rest) with
    | some (p, r) => p :: extractFractionsAux fuel r
    | none => extractFractionsAux fuel rest

/-- `re.findall(r'(\d+)\s*/\s*(\d+)', raw_ocr_text)` from Stage 2 of
`scan_card`: all non-overlapping matches in order of appearance, as raw
numerator/denominator string pairs. -/
def extractNumberFractions (s : String) : List (String × String) :=
  extractFractionsAux s.data.length s.data

/-! ## Per-card scoring (Stage 3 of `scan_card`) -/

/-- Check 1 loop body: walk the extracted fractions; on the first fraction
whose numerator equals `str(card['number'])` and denominator equals
`str(card['set']['printedTotal'])`, add 100 and `break`. -/
def numberLoop (cardNum setTotal : String) : List (String × String) → Nat
  | [] => 0
  | (n, t) :: rest =>
    if cardNum = n ∧ setTotal = t then 100 else numberLoop cardNum setTotal rest

/-- The condition of Check 2: `len(text) >= 4 and
(text in card_name_clean or card_name_clean in text)`. -/
def nameQualifies (cardNameClean t : String) : Bool :=
  decide (4 ≤ t.length) && (substrOf t cardNameClean || substrOf cardNameClean t)

/-- Check 2 loop body: walk the detected fragments; on the first qualifying
fragment add 20 and `break` ("Only score name once"). -/
def nameLoop (cardNameClean : String) : List String → Nat
  | [] => 0
  | t :: rest =>
    if nameQualifies cardNameClean t then 20 else nameLoop cardNameClean rest

/-- The condition of Check 3 for one attack: the cleaned attack name is
non-empty (Python string truthiness) and occurs as a substring of some
fragment. -/
def attackMatches (texts : List String) (a : Attack) : Bool :=
  let an := clean_text (a.name.getD "")
  !an.isEmpty && texts.any (fun t => substrOf an t)

/-- Check 3: every matching attack contributes 10, with no break. -/
def attackScore (texts : List String) (attacks : List Attack) : Nat :=
  (attacks.map (fun a => if attackMatches texts a then 10 else 0)).sum

/-- `str(full_card_details.get('number'))`. -/
def numberKey (card : Card) : String :=
  pyStrOfOptString card.number

/-- `str(full_card_details.get('set', {}).get('printedTotal'))`. -/
def totalKey (card : Card) : String :=
  pyStrOfOptNat (card.cardSet.bind CardSet.printedTotal)

/-- Check 3 with its guard `'attacks' in full_card_details`: a card with no
`attacks` field contributes nothing. -/
def attackPart (texts : List String) (card : Card) : Nat :=
  match card.attacks with
  | none => 0
  | some l => attackScore texts l

/-- The full per-card score of Stage 3: Check 1 (guarded by
`if card_number_matches:`), plus Check 2, plus Check 3. -/
def scoreCard (fractions : List (String × String)) (texts : List String)
    (card : Card) : Nat :=
  (if fractions.isEmpty then 0
   else numberLoop (numberKey card) (totalKey card) fractions)
  + nameLoop (clean_text (card.name.getD "")) texts
  + attackPart texts card

/-! ## Similarity (tie-break path and full-index search path) -/

/-- Dot product of two vectors (`np.dot` on equal-length 1-D arrays). -/
def dotList (u v : List ℝ) : ℝ :=
  (List.zipWith (fun a b => a * b) u v).sum

/-- Euclidean norm. -/
noncomputable def l2norm (v : List ℝ) : ℝ :=
  Real.sqrt (dotList v v)

/-- `scipy.spatial.distance.cdist(·, ·, 'cosine')` on a pair of vectors:
`1 - u·v/(‖u‖₂ ‖v‖₂)`. -/
noncomputable def cosineDistance (u v : List ℝ) : ℝ :=
  1 - dotList u v / (l2norm u * l2norm v)

/-- The tie-break similarity of `scan_card`:
`1 - cdist(query, stored, 'cosine')`. -/
noncomputable def tieSimilarity (u v : List ℝ) : ℝ :=
  1 - cosineDistance u v

/-- The similarity used by `search_similar_cards`:
`np.dot(embeddings, query_embedding)` computes the dot product of each stored
vector with the query. -/
def searchSimilarity (stored query : List ℝ) : ℝ :=
  dotList stored query

/-- `np.argmax`: index of the first occurrence of the maximum value
(0 on an empty array's embedding here, which the scan never hits since the
tie-break list has at least two entries). -/
def argmaxIdx {α : Type} [LinearOrder α] : List α → Nat
  | [] => 0
  | [_] => 0
  | x :: y :: rest =>
    let j := argmaxIdx (y :: rest)
    if x < (y :: rest).getD j x then j + 1 else 0

/-! ## The scan itself (Stages 3–4 of `scan_card`) -/

/-- Everything `scan_card` consumes after the image has been decoded: the
catalog (`clip_processor.all_cards`), the loaded search index, the raw OCR
spans (`ocr_reader.readtext`), and the outcome of
`get_single_image_embedding` on the query image (`none` models the failure
path in which `process_image` catches an exception and returns `None`). -/
structure ScanInput where
  catalog : List Card
  index : List IndexEntry
  ocrTexts : List String
  queryEmbedding : Option (List ℝ)

/-- `raw_ocr_text = " ".join(ocr_results)`. -/
def rawText (inp : ScanInput) : String :=
  String.intercalate " " inp.ocrTexts

/-- `card_number_matches` for this scan. -/
def fractionsOf (inp : ScanInput) : List (String × String) :=
  extractNumberFractions (rawText inp)

/-- Stage 3 sweep: score every index entry whose `card_id` resolves in the
catalog (`continue` on a failed lookup), keeping only entries with
`score > 0`, paired with the index entry they came from (the source keeps
the position `i` to reach the parallel embedding array; the zipped entry
carries its embedding directly). -/
def scoredCandidates (inp : ScanInput) : List (Nat × IndexEntry) :=
  inp.index.filterMap (fun e =>
    match get_full_card_details e.card_id inp.catalog with
    | none => none
    | some card =>
      let s := scoreCard (fractionsOf inp) (detectedTexts inp.ocrTexts) card
      if 0 < s then some (s, e) else none)

/-- `card_scores.sort(key=lambda x: x['score'], reverse=True)` — a stable
descending sort by score (Python's stable sort with `reverse=True` keeps the
original order among equal scores). -/
def sortedCandidates (inp : ScanInput) : List (Nat × IndexEntry) :=
  sortDescBy Prod.fst (scoredCandidates inp)

/-- Placeholder candidate for total list access; never selected on the paths
the scan actually takes. -/
def dummyCand : Nat × IndexEntry :=
  (0, ⟨"", []⟩)

/-- `top_score = card_scores[0]['score']`. -/
def topScore (inp : ScanInput) : Nat :=
  ((sortedCandidates inp).headD dummyCand).1

/-- `best_candidates = [c for c in card_scores if c['score'] == top_score]`. -/
def bestCandidates (inp : ScanInput) : List (Nat × IndexEntry) :=
  (sortedCandidates inp).filter (fun c => decide (c.1 = topScore inp))

/-- The scan's terminal outcome at the transport boundary: either the 404
"Could not find a matching card." response (`noMatch`) or the JSON match
document carrying the chosen card's full metadata, the top score as
confidence, and the `match_method` tag. -/
inductive ScanResult where
  | noMatch : ScanResult
  | resolved (card : Card) (score : Nat) (method : String) : ScanResult
deriving DecidableEq, Repr

/-- Stages 3–4 of `scan_card`.  No candidates → 404.  A unique best
candidate resolves directly with method `"Scoring"`.  A tie resolves through
the query embedding: if the embedding computation fails (`None`),
`final_match_card` stays `None` and the scan returns the 404 branch;
otherwise the tied candidate with the first-maximal `1 - cosine` similarity
wins with method `"Scoring with Image Tie-break"`.  The final lookup mirrors
the source's re-resolution of the winner's `card_id`. -/
noncomputable def scan (inp : ScanInput) : ScanResult :=
  if (scoredCandidates inp).isEmpty then .noMatch
  else if (bestCandidates inp).length = 1 then
    match get_full_card_details
        ((bestCandidates inp).headD dummyCand).2.card_id inp.catalog with
    | some card => .resolved card (topScore inp) "Scoring"
    | none => .noMatch
  else
    match inp.queryEmbedding with
    | none => .noMatch
    | some q =>
      let sims := (bestCandidates inp).map (fun c => tieSimilarity q c.2.embedding)
      match get_full_card_details
          ((bestCandidates inp).getD (argmaxIdx sims) dummyCand).2.card_id inp.catalog with
      | some card => .resolved card (topScore inp) "Scoring with Image Tie-break"
      | none => .noMatch

/-- Extend the attack list of the catalog entry with id `x` by one more
attack `a`, leaving every other entry untouched (the "add one matching
sub-attribute to one candidate" experiment of the spec's monotonicity
property). -/
def extendAttacks (catalog : List Card) (x : String) (a : Attack) : List Card :=
  catalog.map (fun c =>
    if c.id = x then { c with attacks := some ((c.attacks.getD []) ++ [a]) } else c)

/-! ## Concrete fixtures used by the witness theorems -/

/-- A card identified by number `"049"` in a set of printed total 182,
whose name shares nothing with the OCR text. -/
def w1Card : Card :=
  { id := "sv1-49"
    name := some "Bulbasaur"
    number := some "049"
    cardSet := some { printedTotal := some 182 }
    attacks := none }

def w1Inp : ScanInput :=
  { catalog := [w1Card]
    index := [⟨"sv1-49", []⟩]
    ocrTexts := ["049/182"]
    queryEmbedding := none }

/-- Two cards that both score 20 from the fragment `"pikachu"`. -/
def wTieCardA : Card :=
  { id := "A"
    name := some "Pikachu"
    number := some "025"
    cardSet := none
    attacks := none }

def wTieCardB : Card :=
  { id := "B"
    name := some "Pikachu V"
    number := some "026"
    cardSet := none
    attacks := none }

def wTieEntryA : IndexEntry := ⟨"A", [1, 0]⟩

def wTieEntryB : IndexEntry := ⟨"B", [0, 1]⟩

/-- Tie between A and B, query embedding available and closer to B. -/
def w2Inp : ScanInput :=
  { catalog := [wTieCardA, wTieCardB]
    index := [wTieEntryA, wTieEntryB]
    ocrTexts := ["Pikachu"]
    queryEmbedding := some [0, 1] }

/-- Tie between A and B, query embedding computation failed. -/
def w3Inp : ScanInput :=
  { catalog := [wTieCardA, wTieCardB]
    index := [wTieEntryA, wTieEntryB]
    ocrTexts := ["Pikachu"]
    queryEmbedding := none }

/-- An attack whose cleaned name occurs in the fragment list
`["thundershock"]`. -/
def w4Atk : Attack := { name := some "Thunder Shock" }

def w4Card : Card :=
  { id := "w4"
    name := some "Zapdos"
    number := some "1"
    cardSet := none
    attacks := some [] }

def w4Other : Card :=
  { id := "other"
    name := some "Moltres"
    number := some "2"
    cardSet := none
    attacks := none }

/-- A catalog entry reachable from the index, plus an index entry whose id
resolves nowhere. -/
def w5Card : Card :=
  { id := "good"
    name := some "Pikachu"
    number := some "3"
    cardSet := none
    attacks := none }

def w5Good : IndexEntry := ⟨"good", []⟩

def w5Bad : IndexEntry := ⟨"ghost", []⟩

/-- OCR text that matches nothing: every entry scores 0. -/
def w6Inp : ScanInput :=
  { catalog := [w5Card]
    index := [w5Good]
    ocrTexts := ["zzzz"]
    queryEmbedding := none }

/-- OCR text that gives the single entry a positive score. -/
def w6PosInp : ScanInput :=
  { catalog := [w5Card]
    index := [w5Good]
    ocrTexts := ["Pikachu"]
    queryEmbedding := none }

/-- A card whose display name contains no ASCII letter or digit. -/
def w10Card : Card :=
  { id := "w10"
    name := some "★♦!"
    number := some "7"
    cardSet := none
    attacks := none }

/-! ## Lemmas about the stable descending sort -/

theorem insertDescBy_perm {α : Type} (key : α → Nat) (c : α) (l : List α) :
    List.Perm (insertDescBy key c l) (c :: l) := by
  induction l with
  | nil => simp [insertDescBy]
  | cons d rest ih =>
    simp only [insertDescBy]
    split
    · exact List.Perm.refl _
    · exact (ih.cons d).trans (List.Perm.swap c d rest)

theorem sortDescBy_perm {α : Type} (key : α → Nat) (l : List α) :
    List.Perm (sortDescBy key l) l := by
  induction l with
  | nil => simp [sortDescBy]
  | cons c rest ih => exact (insertDescBy_perm key c _).trans (ih.cons c)

theorem mem_sortDescBy {α : Type} (key : α → Nat) (l : List α) (c : α) :
    c ∈ sortDescBy key l ↔ c ∈ l :=
  (sortDescBy_perm key l).mem_iff

theorem pairwise_insertDescBy {α : Type} (key : α → Nat) (c : α) (l : List α)
    (h : l.Pairwise (fun a b => key b ≤ key a)) :
    (insertDescBy key c l).Pairwise (fun a b => key b ≤ key a) := by
  induction l with
  | nil => simp [insertDescBy]
  | cons d rest ih =>
    rcases List.pairwise_cons.mp h with ⟨hd, ht⟩
    simp only [insertDescBy]
    split
    case isTrue hle =>
      refine List.pairwise_cons.mpr ⟨?_, h⟩
      intro x hx
      rcases List.mem_cons.mp hx with rfl | hx'
      · exact hle
      · exact le_trans (hd x hx') hle
    case isFalse hgt =>
      refine List.pairwise_cons.mpr ⟨?_, ih ht⟩
      intro x hx
      rcases List.mem_cons.mp ((insertDescBy_perm key c rest).mem_iff.mp hx) with rfl | hx'
      · omega
      · exact hd x hx'

theorem pairwise_sortDescBy {α : Type} (key : α → Nat) (l : List α) :
    (sortDescBy key l).Pairwise (fun a b => key b ≤ key a) := by
  induction l with
  | nil => simp [sortDescBy]
  | cons c rest ih => exact pairwise_insertDescBy key c _ ih

/-- Stability, phrased on one key class: filtering a sorted list down to the
elements whose key is exactly `m` recovers those elements in their original
order. -/
theorem filter_insertDescBy {α : Type} (key : α → Nat) (c : α) (l : List α) (m : Nat) :
    (insertDescBy key c l).filter (fun d => decide (key d = m)) =
      if key c = m then c :: l.filter (fun d => decide (key d = m))
      else l.filter (fun d => decide (key d = m)) := by
  induction l with
  | nil => by_cases hc : key c = m <;> simp [insertDescBy, hc]
  | cons d rest ih =>
    simp only [insertDescBy]
    split
    case isTrue hle =>
      by_cases hc : key c = m <;> simp [List.filter_cons, hc]
    case isFalse hgt =>
      by_cases hd : key d = m
      · have hc : ¬ key c = m := by omega
        simp [List.filter_cons, hd, hc, ih]
      · by_cases hc : key c = m <;> simp [List.filter_cons, hd, hc, ih]

theorem filter_sortDescBy {α : Type} (key : α → Nat) (l : List α) (m : Nat) :
    (sortDescBy key l).filter (fun d => decide (key d = m)) =
      l.filter (fun d => decide (key d = m)) := by
  induction l with
  | nil => simp [sortDescBy]
  | cons c rest ih =>
    rw [sortDescBy, filter_insertDescBy]
    by_cases hc : key c = m <;> simp [List.filter_cons, hc, ih]

/-- The head of the descending sort carries a maximal key. -/
theorem key_le_headD_sortDescBy {α : Type} (key : α → Nat) (l : List α) (d₀ : α)
    (c : α) (hc : c ∈ l) :
    key c ≤ key ((sortDescBy key l).headD d₀) := by
  have hmem : c ∈ sortDescBy key l := (mem_sortDescBy key l c).mpr hc
  have hp := pairwise_sortDescBy key l
  cases hs : sortDescBy key l with
  | nil => rw [hs] at hmem; simp at hmem
  | cons h t =>
    rw [hs] at hmem hp
    rcases List.mem_cons.mp hmem with rfl | hmem'
    · simp
    · simpa using (List.pairwise_cons.mp hp).1 c hmem'

/-! ## Lemmas about `argmaxIdx` -/

theorem getD_of_lt_length {α : Type} (l : List α) (i : Nat) (h : i < l.length) (d d' : α) :
    l.getD i d = l.getD i d' := by
  simp [List.getD_eq_getElem?_getD, List.getElem?_eq_getElem h]

theorem argmaxIdx_lt_length {α : Type} [LinearOrder α] :
    (l : List α) → l ≠ [] → argmaxIdx l < l.length
  | [x], _ => by simp [argmaxIdx]
  | x :: y :: rest, _ => by
    have ih := argmaxIdx_lt_length (y :: rest) (by simp)
    simp only [argmaxIdx]
    split
    · simpa using Nat.succ_lt_succ ih
    · simp

/-- `np.argmax` returns the index of a maximal element. -/
theorem argmaxIdx_is_max {α : Type} [LinearOrder α] :
    (l : List α) → (d : α) → ∀ i, i < l.length →
      l.getD i d ≤ l.getD (argmaxIdx l) d
  | [], _ => by intro i hi; simp at hi
  | [x], d => by
    intro i hi
    have : i = 0 := by simpa using hi
    subst this
    simp [argmaxIdx]
  | x :: y :: rest, d => by
    intro i hi
    have ihm := argmaxIdx_is_max (y :: rest) d
    have ihl := argmaxIdx_lt_length (y :: rest) (by simp)
    have hdx : (y :: rest).getD (argmaxIdx (y :: rest)) x
        = (y :: rest).getD (argmaxIdx (y :: rest)) d :=
      getD_of_lt_length _ _ ihl x d
    simp only [argmaxIdx]
    split
    case isTrue hlt =>
      rw [hdx] at hlt
      cases i with
      | zero => simpa using le_of_lt hlt
      | succ i' =>
        simp only [List.getD_cons_succ]
        exact ihm i' (by simpa using hi)
    case isFalse hge =>
      rw [hdx] at hge
      push_neg at hge
      cases i with
      | zero => simp
      | succ i' =>
        simp only [List.getD_cons_succ, List.getD_cons_zero]
        exact le_trans (ihm i' (by simpa using hi)) hge

/-- `np.argmax` returns the index of the *first* maximal element: everything
strictly before the returned index is strictly smaller. -/
theorem argmaxIdx_is_first {α : Type} [LinearOrder α] :
    (l : List α) → (d : α) → ∀ i, i < argmaxIdx l →
      l.getD i d < l.getD (argmaxIdx l) d
  | [], _ => by intro i hi; simp [argmaxIdx] at hi
  | [x], d => by intro i hi; simp [argmaxIdx] at hi
  | x :: y :: rest, d => by
    intro i hi
    have ihf := argmaxIdx_is_first (y :: rest) d
    have ihl := argmaxIdx_lt_length (y :: rest) (by simp)
    have hdx : (y :: rest).getD (argmaxIdx (y :: rest)) x
        = (y :: rest).getD (argmaxIdx (y :: rest)) d :=
      getD_of_lt_length _ _ ihl x d
    simp only [argmaxIdx] at hi ⊢
    split
    case isTrue hlt =>
      rw [if_pos hlt] at hi
      rw [hdx] at hlt
      cases i with
      | zero => simpa using hlt
      | succ i' =>
        simp only [List.getD_cons_succ]
        exact ihf i' (by omega)
    case isFalse hge =>
      rw [if_neg hge] at hi
      omega

/-- `np.argmax` on a two-element array. -/
theorem argmaxIdx_pair {α : Type} [LinearOrder α] (x y : α) :
    argmaxIdx [x, y] = if x < y then 1 else 0 := by
  rw [argmaxIdx]
  simp [argmaxIdx]

/-! ## Lemmas about the scan pipeline -/

/-- Every scored candidate resolves in the catalog, its score is the score
of the resolved card, and its score is strictly positive. -/
theorem mem_scoredCandidates {inp : ScanInput} {c : Nat × IndexEntry}
    (h : c ∈ scoredCandidates inp) :
    ∃ card, get_full_card_details c.2.card_id inp.catalog = some card
      ∧ scoreCard (fractionsOf inp) (detectedTexts inp.ocrTexts) card = c.1
      ∧ 0 < c.1 := by
  rw [scoredCandidates] at h
  rcases List.mem_filterMap.mp h with ⟨e, -, he⟩
  rcases hcd : get_full_card_details e.card_id inp.catalog with _ | card
  · rw [hcd] at he
    simp at he
  · rw [hcd] at he
    simp only at he
    by_cases hs : 0 < scoreCard (fractionsOf inp) (detectedTexts inp.ocrTexts) card
    · rw [if_pos hs] at he
      rcases Option.some.inj he with rfl
      exact ⟨card, hcd, rfl, hs⟩
    · rw [if_neg hs] at he
      simp at he

theorem le_topScore {inp : ScanInput} {c : Nat × IndexEntry}
    (hc : c ∈ scoredCandidates inp) : c.1 ≤ topScore inp :=
  key_le_headD_sortDescBy Prod.fst _ dummyCand c hc

theorem sortedCandidates_ne_nil {inp : ScanInput}
    (h : scoredCandidates inp ≠ []) : sortedCandidates inp ≠ [] := by
  intro hs
  exact h (List.eq_nil_of_length_eq_zero
    ((sortDescBy_perm Prod.fst (scoredCandidates inp)).symm.length_eq.trans
      (by rw [sortedCandidates] at hs; rw [hs]; rfl)))

theorem headD_mem_scoredCandidates {inp : ScanInput}
    (h : scoredCandidates inp ≠ []) :
    (sortedCandidates inp).headD dummyCand ∈ scoredCandidates inp := by
  have hs := sortedCandidates_ne_nil h
  cases hq : sortedCandidates inp with
  | nil => exact absurd hq hs
  | cons a t =>
    rw [List.headD_cons]
    have ha : a ∈ sortedCandidates inp := by rw [hq]; exact List.mem_cons_self a t
    exact (mem_sortDescBy Prod.fst _ a).mp ha

/-- Stability instantiated at the scan: the tied best candidates appear in
their original candidate order. -/
theorem bestCandidates_eq_filter (inp : ScanInput) :
    bestCandidates inp
      = (scoredCandidates inp).filter (fun c => decide (c.1 = topScore inp)) :=
  filter_sortDescBy Prod.fst (scoredCandidates inp) (topScore inp)

theorem headD_mem_bestCandidates {inp : ScanInput}
    (h : scoredCandidates inp ≠ []) :
    (sortedCandidates inp).headD dummyCand ∈ bestCandidates inp := by
  have hs := sortedCandidates_ne_nil h
  rw [bestCandidates]
  refine List.mem_filter.mpr ⟨?_, ?_⟩
  · cases hq : sortedCandidates inp with
    | nil => exact absurd hq hs
    | cons a t => rw [List.headD_cons]; exact List.mem_cons_self a t
  · simp [topScore]

theorem bestCandidates_ne_nil {inp : ScanInput}
    (h : scoredCandidates inp ≠ []) : bestCandidates inp ≠ [] := by
  intro hb
  exact (List.mem_nil_iff _).mp (hb ▸ headD_mem_bestCandidates h)

theorem scoredCandidates_ne_nil_of_best {inp : ScanInput}
    (h : bestCandidates inp ≠ []) : scoredCandidates inp ≠ [] := by
  intro hc
  apply h
  rw [bestCandidates, sortedCandidates, hc]
  rfl

theorem mem_bestCandidates {inp : ScanInput} {c : Nat × IndexEntry}
    (h : c ∈ bestCandidates inp) :
    c ∈ scoredCandidates inp ∧ c.1 = topScore inp := by
  rw [bestCandidates_eq_filter] at h
  have := List.mem_filter.mp h
  exact ⟨this.1, by simpa using this.2⟩

/-- The NoCandidates branch: no entry scored above zero, 404 outcome. -/
theorem scan_noMatch_of_no_candidates {inp : ScanInput}
    (h : scoredCandidates inp = []) : scan inp = .noMatch := by
  simp [scan, h]

/-- The EmbeddingFailure branch during a tie-break. -/
theorem scan_tie_embedding_failure {inp : ScanInput}
    (hlen : 2 ≤ (bestCandidates inp).length)
    (hq : inp.queryEmbedding = none) :
    scan inp = .noMatch := by
  have hne : scoredCandidates inp ≠ [] :=
    scoredCandidates_ne_nil_of_best (by intro hb; rw [hb] at hlen; simp at hlen)
  have hne' : (scoredCandidates inp).isEmpty = false := by
    simpa [List.isEmpty_iff] using hne
  have h1 : ¬((bestCandidates inp).length = 1) := by omega
  simp [scan, hne', h1, hq]

/-- The TieBreak branch with a successful embedding: the scan resolves to
the tied candidate at `np.argmax` of the `1 - cosine` similarities, with the
tied top score as confidence. -/
theorem scan_tie_resolved {inp : ScanInput} {q : List ℝ}
    (hlen : 2 ≤ (bestCandidates inp).length)
    (hq : inp.queryEmbedding = some q) :
    ∃ card,
      get_full_card_details
        (((bestCandidates inp).getD
            (argmaxIdx ((bestCandidates inp).map (fun c => tieSimilarity q c.2.embedding)))
            dummyCand).2.card_id) inp.catalog = some card
      ∧ scan inp = .resolved card (topScore inp) "Scoring with Image Tie-break" := by
  have hne : scoredCandidates inp ≠ [] :=
    scoredCandidates_ne_nil_of_best (by intro hb; rw [hb] at hlen; simp at hlen)
  have hne' : (scoredCandidates inp).isEmpty = false := by
    simpa [List.isEmpty_iff] using hne
  have h1 : ¬((bestCandidates inp).length = 1) := by omega
  set sims := (bestCandidates inp).map (fun c => tieSimilarity q c.2.embedding) with hsims
  have hbne : bestCandidates inp ≠ [] := by
    intro hb
    rw [hb] at hlen
    simp at hlen
  have hsl : sims.length = (bestCandidates inp).length := List.length_map _ _
  have hsne : sims ≠ [] := by
    rw [hsims]
    intro h0
    exact hbne (List.map_eq_nil_iff.mp h0)
  have hlt : argmaxIdx sims < (bestCandidates inp).length := by
    rw [← hsl]
    exact argmaxIdx_lt_length sims hsne
  have hmem : (bestCandidates inp).getD (argmaxIdx sims) dummyCand ∈ bestCandidates inp := by
    rw [List.getD_eq_getElem?_getD, List.getElem?_eq_getElem hlt, Option.getD_some]
    exact List.getElem_mem hlt
  rcases mem_scoredCandidates (mem_bestCandidates hmem).1 with ⟨card, hcd, -, -⟩
  refine ⟨card, hcd, ?_⟩
  rw [scan]
  rw [if_neg (by simp [hne']), if_neg h1, hq]
  simp only [← hsims, hcd]

/-- The direct-resolution branch: a strictly dominant candidate wins with
method `"Scoring"` and its own score as confidence. -/
theorem scan_unique_best {inp : ScanInput} {c₀ : Nat × IndexEntry} {s₀ : Nat}
    (hfil : (scoredCandidates inp).filter (fun c => decide (c.1 = s₀)) = [c₀])
    (hmax : ∀ c ∈ scoredCandidates inp, c.1 ≤ s₀) :
    topScore inp = s₀ ∧ bestCandidates inp = [c₀] ∧
    ∃ card, get_full_card_details c₀.2.card_id inp.catalog = some card ∧
      scan inp = .resolved card s₀ "Scoring" := by
  have hc₀ : c₀ ∈ (scoredCandidates inp).filter (fun c => decide (c.1 = s₀)) := by
    rw [hfil]; exact List.mem_cons_self _ _
  have hc₀' := List.mem_filter.mp hc₀
  have hc₀s : c₀.1 = s₀ := by simpa using hc₀'.2
  have hne : scoredCandidates inp ≠ [] := by
    intro h0
    rw [h0] at hc₀'
    exact (List.mem_nil_iff _).mp hc₀'.1
  have hne' : (scoredCandidates inp).isEmpty = false := by
    simpa [List.isEmpty_iff] using hne
  have htop : topScore inp = s₀ := by
    have h₁ : topScore inp ≤ s₀ := by
      have := hmax _ (headD_mem_scoredCandidates hne)
      simpa [topScore] using this
    have h₂ : s₀ ≤ topScore inp := hc₀s ▸ le_topScore hc₀'.1
    omega
  have hbest : bestCandidates inp = [c₀] := by
    rw [bestCandidates_eq_filter, htop, hfil]
  rcases mem_scoredCandidates hc₀'.1 with ⟨card, hcd, -, -⟩
  refine ⟨htop, hbest, card, hcd, ?_⟩
  rw [scan]
  rw [if_neg (by simp [hne']), if_pos (by rw [hbest]; rfl)]
  rw [hbest]
  simp only [List.headD_cons, hcd, htop]

/-! ## Characterisation of the scoring checks -/

/-- Check 1 awards 100 exactly when some extracted fraction matches both
fields, and 0 otherwise — the `break` makes a second award impossible. -/
theorem numberLoop_eq (cardNum setTotal : String) (fr : List (String × String)) :
    numberLoop cardNum setTotal fr
      = if ∃ p ∈ fr, cardNum = p.1 ∧ setTotal = p.2 then 100 else 0 := by
  induction fr with
  | nil => simp [numberLoop]
  | cons p rest ih =>
    obtain ⟨n, t⟩ := p
    rw [numberLoop, ih]
    by_cases h : cardNum = n ∧ setTotal = t
    · rw [if_pos h, if_pos ⟨(n, t), List.mem_cons_self _ _, h⟩]
    · rw [if_neg h]
      by_cases h2 : ∃ p ∈ rest, cardNum = p.1 ∧ setTotal = p.2
      · rcases h2 with ⟨p, hp, hpp⟩
        rw [if_pos ⟨p, hp, hpp⟩, if_pos ⟨p, List.mem_cons_of_mem _ hp, hpp⟩]
      · rw [if_neg h2, if_neg ?_]
        rintro ⟨p, hp, hpp⟩
        rcases List.mem_cons.mp hp with rfl | hp'
        · exact h hpp
        · exact h2 ⟨p, hp', hpp⟩

/-- Check 2 awards 20 exactly when some fragment qualifies, and 0
otherwise — the `break` makes a second award impossible. -/
theorem nameLoop_eq (nameClean : String) (ts : List String) :
    nameLoop nameClean ts
      = if ∃ t ∈ ts, nameQualifies nameClean t = true then 20 else 0 := by
  induction ts with
  | nil => simp [nameLoop]
  | cons t rest ih =>
    rw [nameLoop, ih]
    by_cases h : nameQualifies nameClean t = true
    · rw [if_pos h, if_pos ⟨t, List.mem_cons_self _ _, h⟩]
    · rw [if_neg h]
      by_cases h2 : ∃ u ∈ rest, nameQualifies nameClean u = true
      · rcases h2 with ⟨u, hu, huu⟩
        rw [if_pos ⟨u, hu, huu⟩, if_pos ⟨u, List.mem_cons_of_mem _ hu, huu⟩]
      · rw [if_neg h2, if_neg ?_]
        rintro ⟨u, hu, huu⟩
        rcases List.mem_cons.mp hu with rfl | hu'
        · exact h huu
        · exact h2 ⟨u, hu', huu⟩

theorem attackScore_cons (texts : List String) (a : Attack) (rest : List Attack) :
    attackScore texts (a :: rest)
      = (if attackMatches texts a then 10 else 0) + attackScore texts rest := by
  simp [attackScore]

/-- Check 3 pays 10 for every matching attack in the list, uncapped. -/
theorem attackScore_eq_count (texts : List String) (l : List Attack) :
    attackScore texts l = 10 * l.countP (attackMatches texts) := by
  induction l with
  | nil => simp [attackScore]
  | cons a rest ih =>
    rw [attackScore_cons, List.countP_cons, ih]
    by_cases h : attackMatches texts a = true
    · rw [if_pos h, if_pos h]
      omega
    · rw [if_neg h, if_neg h]
      omega

theorem attackScore_append (texts : List String) (l₁ l₂ : List Attack) :
    attackScore texts (l₁ ++ l₂) = attackScore texts l₁ + attackScore texts l₂ := by
  simp [attackScore]

/-- The empty string is a Python substring of every string. -/
theorem substrOf_empty_left (t : String) : substrOf "" t = true := by
  rw [substrOf, decide_eq_true_eq]
  exact List.nil_infix

theorem clean_text_eq_empty {s : String}
    (h : ∀ c ∈ s.data, (c.isAlpha || c.isDigit) = false) : clean_text s = "" := by
  rw [clean_text]
  have hf : s.data.filter (fun c => c.isAlpha || c.isDigit) = [] := by
    rw [List.filter_eq_nil_iff]
    intro c hc
    simp [h c hc]
  rw [hf]
  rfl

/-- Extending one entry's attack list does not change catalog resolution for
any other id. -/
theorem get_full_card_details_extendAttacks (catalog : List Card) (x : String)
    (a : Attack) (id : String) (hid : id ≠ x) :
    get_full_card_details id (extendAttacks catalog x a)
      = get_full_card_details id catalog := by
  induction catalog with
  | nil => rfl
  | cons c rest ih =>
    rw [extendAttacks, List.map_cons, get_full_card_details, get_full_card_details]
    rw [extendAttacks] at ih
    rw [get_full_card_details, get_full_card_details] at ih
    by_cases hc : c.id = x
    · rw [if_pos hc]
      rw [List.find?_cons_of_neg, List.find?_cons_of_neg]
      · exact ih
      · show ¬(c.id == id) = true
        simp only [beq_iff_eq]
        intro h
        exact hid (h ▸ hc)
      · show ¬(c.id == id) = true
        simp only [beq_iff_eq]
        intro h
        exact hid (h ▸ hc)
    · rw [if_neg hc]
      by_cases hcid : (c.id == id) = true
      · rw [List.find?_cons_of_pos, List.find?_cons_of_pos]
        · exact hcid
        · exact hcid
      · rw [List.find?_cons_of_neg, List.find?_cons_of_neg]
        · exact ih
        · exact hcid
        · exact hcid

/-! ## Lemmas about the two similarity formulas -/

theorem dotList_comm (u v : List ℝ) : dotList u v = dotList v u := by
  rw [dotList, dotList, List.zipWith_comm_of_comm _ mul_comm]

/-- On unit vectors the tie-break similarity `1 - cosine distance` is the
plain dot product. -/
theorem tieSimilarity_eq_dot {u v : List ℝ} (hu : l2norm u = 1) (hv : l2norm v = 1) :
    tieSimilarity u v = dotList u v := by
  rw [tieSimilarity, cosineDistance, hu, hv]
  ring

/-! ## The claims -/

/-- **C1**: for every catalog entry and every scan, the number-match bonus is
awarded exactly once (+100) iff some extracted fraction has its numerator
string-equal to `str(number)` and its denominator string-equal to
`str(printedTotal)`; the `break` keeps the contribution at no more than 100;
with no other matching signals such an entry's total score is exactly 100
and, as the unique best candidate, it wins with method `"Scoring"`. -/
theorem C1_number_match :
    (∀ (cardNum setTotal : String) (fr : List (String × String)),
      (numberLoop cardNum setTotal fr = 100
          ↔ ∃ p ∈ fr, cardNum = p.1 ∧ setTotal = p.2)
        ∧ numberLoop cardNum setTotal fr ≤ 100)
    ∧ (∀ (fr : List (String × String)) (ts : List String) (card : Card),
        (∃ p ∈ fr, numberKey card = p.1 ∧ totalKey card = p.2) →
        nameLoop (clean_text (card.name.getD "")) ts = 0 →
        attackPart ts card = 0 →
        scoreCard fr ts card = 100)
    ∧ (∀ (inp : ScanInput) (c₀ : Nat × IndexEntry),
        (scoredCandidates inp).filter (fun c => decide (c.1 = c₀.1)) = [c₀] →
        (∀ c ∈ scoredCandidates inp, c.1 ≤ c₀.1) →
        ∃ card, get_full_card_details c₀.2.card_id inp.catalog = some card
          ∧ scan inp = .resolved card c₀.1 "Scoring") := by
  refine ⟨?_, ?_, ?_⟩
  · intro cardNum setTotal fr
    rw [numberLoop_eq]
    by_cases h : ∃ p ∈ fr, cardNum = p.1 ∧ setTotal = p.2
    · simp [h]
    · simp [h]
  · intro fr ts card hex hname hatk
    have hne : fr.isEmpty = false := by
      rcases hex with ⟨p, hp, -⟩
      cases fr
      · exact absurd hp (List.not_mem_nil p)
      · rfl
    rw [scoreCard, hname, hatk, if_neg (by simp [hne]), numberLoop_eq, if_pos hex]
  · intro inp c₀ hfil hmax
    obtain ⟨-, -, card, hcd, hscan⟩ := scan_unique_best hfil hmax
    exact ⟨card, hcd, hscan⟩

/-- Witness for C1: the card numbered `"049"` in a 182-card set scores
exactly 100 from the single OCR fraction `("049", "182")` and wins its scan
with method `"Scoring"`. -/
theorem C1_number_match_witness :
    numberLoop "049" "182" [("049", "182")] = 100
    ∧ scoreCard [("049", "182")] ["049182"] w1Card = 100
    ∧ (scoredCandidates w1Inp).filter (fun c => decide (c.1 = 100))
        = [(100, ⟨"sv1-49", []⟩)]
    ∧ scan w1Inp = .resolved w1Card 100 "Scoring" := by
  have h1 : numberLoop "049" "182" [("049", "182")] = 100 :=
    (C1_number_match.1 "049" "182" _).1.mpr
      ⟨("049", "182"), List.mem_cons_self _ _, rfl, rfl⟩
  have h2 : scoreCard [("049", "182")] ["049182"] w1Card = 100 :=
    C1_number_match.2.1 _ _ _
      ⟨("049", "182"), List.mem_cons_self _ _, rfl, rfl⟩ rfl rfl
  have h3 : (scoredCandidates w1Inp).filter (fun c => decide (c.1 = 100))
      = [(100, ⟨"sv1-49", []⟩)] := rfl
  obtain ⟨card, hcd, hscan⟩ :=
    C1_number_match.2.2 w1Inp (100, ⟨"sv1-49", []⟩) h3 (by decide)
  have hc : card = w1Card := by
    have hsome : some w1Card = some card := by rw [← hcd]; rfl
    exact (Option.some.inj hsome).symm
  refine ⟨h1, h2, h3, ?_⟩
  rw [← hc]
  exact hscan

/-- **C3**: if the tie-break is entered (at least two tied best candidates)
and the query-embedding computation fails, the scan terminates in the
"no match" outcome and in particular never resolves to any candidate. -/
theorem C3_embedding_failure_noMatch (inp : ScanInput)
    (hlen : 2 ≤ (bestCandidates inp).length)
    (hq : inp.queryEmbedding = none) :
    scan inp = .noMatch
    ∧ ∀ (card : Card) (s : Nat) (m : String), scan inp ≠ .resolved card s m := by
  have h := scan_tie_embedding_failure hlen hq
  refine ⟨h, ?_⟩
  intro card s m hcontra
  rw [h] at hcontra
  exact ScanResult.noConfusion hcontra

/-- Witness for C3: two candidates tied at 20, no query embedding, NoMatch. -/
theorem C3_embedding_failure_noMatch_witness :
    2 ≤ (bestCandidates w3Inp).length ∧ scan w3Inp = .noMatch :=
  ⟨by decide, (C3_embedding_failure_noMatch w3Inp (by decide) rfl).1⟩

/-- **C5**: an index entry whose catalog id does not resolve never appears in
the candidate set, and the scan's outcome on an index containing it is
identical to the outcome on the same index with it removed. -/
theorem C5_missing_index_id (catalog : List Card) (l1 l2 : List IndexEntry)
    (bad : IndexEntry) (ocr : List String) (qe : Option (List ℝ))
    (hmiss : get_full_card_details bad.card_id catalog = none) :
    (∀ s : Nat, (s, bad) ∉ scoredCandidates ⟨catalog, l1 ++ bad :: l2, ocr, qe⟩)
    ∧ scoredCandidates ⟨catalog, l1 ++ bad :: l2, ocr, qe⟩
        = scoredCandidates ⟨catalog, l1 ++ l2, ocr, qe⟩
    ∧ scan ⟨catalog, l1 ++ bad :: l2, ocr, qe⟩
        = scan ⟨catalog, l1 ++ l2, ocr, qe⟩ := by
  have hnot : ∀ s : Nat, (s, bad) ∉ scoredCandidates ⟨catalog, l1 ++ bad :: l2, ocr, qe⟩ := by
    intro s hmem
    obtain ⟨card, hcd, -, -⟩ := mem_scoredCandidates hmem
    have hcd' : get_full_card_details bad.card_id catalog = some card := hcd
    rw [hmiss] at hcd'
    exact Option.noConfusion hcd'
  have h2 : scoredCandidates ⟨catalog, l1 ++ bad :: l2, ocr, qe⟩
      = scoredCandidates ⟨catalog, l1 ++ l2, ocr, qe⟩ := by
    simp only [scoredCandidates, List.filterMap_append, List.filterMap_cons]
    rw [hmiss]
    rfl
  have hsorted : sortedCandidates ⟨catalog, l1 ++ bad :: l2, ocr, qe⟩
      = sortedCandidates ⟨catalog, l1 ++ l2, ocr, qe⟩ := by
    rw [sortedCandidates, sortedCandidates, h2]
  have htop : topScore ⟨catalog, l1 ++ bad :: l2, ocr, qe⟩
      = topScore ⟨catalog, l1 ++ l2, ocr, qe⟩ := by
    rw [topScore, topScore, hsorted]
  have hbest : bestCandidates ⟨catalog, l1 ++ bad :: l2, ocr, qe⟩
      = bestCandidates ⟨catalog, l1 ++ l2, ocr, qe⟩ := by
    rw [bestCandidates, bestCandidates, hsorted, htop]
  refine ⟨hnot, h2, ?_⟩
  rw [scan, scan, h2, hbest, htop]

/-- Witness for C5: a ghost index entry is skipped and changes nothing. -/
theorem C5_missing_index_id_witness :
    get_full_card_details w5Bad.card_id [w5Card] = none
    ∧ scoredCandidates ⟨[w5Card], [w5Bad, w5Good], ["Pikachu"], none⟩
        = scoredCandidates ⟨[w5Card], [w5Good], ["Pikachu"], none⟩
    ∧ scan ⟨[w5Card], [w5Bad, w5Good], ["Pikachu"], none⟩
        = scan ⟨[w5Card], [w5Good], ["Pikachu"], none⟩ := by
  have h := C5_missing_index_id [w5Card] [] [w5Good] w5Bad ["Pikachu"] none rfl
  exact ⟨rfl, h.2.1, h.2.2⟩

/-- **C6**: entries scoring 0 are excluded from the candidate set entirely,
and when no entry scores above zero the scan terminates in the distinct
"no match" outcome (the result type is total: there is no fault outcome). -/
theorem C6_zero_excluded :
    (∀ (inp : ScanInput) (c : Nat × IndexEntry),
      c ∈ scoredCandidates inp → 0 < c.1)
    ∧ (∀ inp : ScanInput, scoredCandidates inp = [] → scan inp = .noMatch) := by
  constructor
  · intro inp c hc
    obtain ⟨-, -, -, h⟩ := mem_scoredCandidates hc
    exact h
  · intro inp h
    exact scan_noMatch_of_no_candidates h

/-- Witness for C6: a positive candidate has positive score; a scan with no
positive scorer ends in NoMatch. -/
theorem C6_zero_excluded_witness :
    ((20, w5Good) ∈ scoredCandidates w6PosInp ∧ 0 < (20, w5Good).1)
    ∧ (scoredCandidates w6Inp = [] ∧ scan w6Inp = .noMatch) := by
  have hmem : (20, w5Good) ∈ scoredCandidates w6PosInp := by
    rw [show scoredCandidates w6PosInp = [(20, w5Good)] from rfl]
    exact List.mem_cons_self _ _
  exact ⟨⟨hmem, C6_zero_excluded.1 w6PosInp _ hmem⟩, rfl, C6_zero_excluded.2 w6Inp rfl⟩

/-- **C7**: the name-match bonus is at most 20, and is awarded exactly when
some fragment of length at least 4 is a substring of the cleaned name or the
cleaned name is a substring of the fragment; a qualifying fragment at the
head of the (deduplicated, longest-first) fragment list settles the bonus
regardless of the remaining fragments. -/
theorem C7_name_match (cardNameClean : String) (ts : List String) :
    nameLoop cardNameClean ts ≤ 20
    ∧ (nameLoop cardNameClean ts = 20
        ↔ ∃ t ∈ ts, 4 ≤ t.length
            ∧ (substrOf t cardNameClean = true ∨ substrOf cardNameClean t = true))
    ∧ (∀ (t : String) (rest : List String), nameQualifies cardNameClean t = true →
        nameLoop cardNameClean (t :: rest) = 20) := by
  have key : ∀ t : String, nameQualifies cardNameClean t = true
      ↔ (4 ≤ t.length ∧ (substrOf t cardNameClean = true ∨ substrOf cardNameClean t = true)) := by
    intro t
    rw [nameQualifies]
    simp
  refine ⟨?_, ?_, ?_⟩
  · rw [nameLoop_eq]
    split
    · exact le_refl 20
    · omega
  · rw [nameLoop_eq]
    by_cases h : ∃ t ∈ ts, nameQualifies cardNameClean t = true
    · rw [if_pos h]
      constructor
      · intro _
        rcases h with ⟨t, ht, hq⟩
        exact ⟨t, ht, (key t).mp hq⟩
      · intro _
        rfl
    · rw [if_neg h]
      constructor
      · intro h0
        omega
      · rintro ⟨t, ht, hq⟩
        exact (h ⟨t, ht, (key t).mpr hq⟩).elim
  · intro t rest hq
    rw [nameLoop, if_pos hq]

/-- Witness for C7: the fragment `"pika"` (length 4) inside `"pikachu"`. -/
theorem C7_name_match_witness :
    4 ≤ ("pika" : String).length
    ∧ substrOf "pika" "pikachu" = true
    ∧ nameLoop "pikachu" ["pika"] = 20 := by
  refine ⟨by decide, by decide, ?_⟩
  exact (C7_name_match "pikachu" ["pika"]).2.1.mpr
    ⟨"pika", List.mem_cons_self _ _, by decide, Or.inl (by decide)⟩

/-- **C8**: number-fraction extraction returns the non-overlapping matches of
digits/optional-space/slash/optional-space/digits, in order of appearance, as
raw string pairs with leading zeros preserved, and string-exact pairs with
and without a leading zero are distinct. -/
theorem C8_fraction_extraction :
    extractNumberFractions "049/182" = [("049", "182")]
    ∧ extractNumberFractions "49 / 182" = [("49", "182")]
    ∧ extractNumberFractions "49/ 182" = [("49", "182")]
    ∧ extractNumberFractions "Pikachu 12/34 HP60 56/78" = [("12", "34"), ("56", "78")]
    ∧ (("049", "182") : String × String) ≠ ("49", "182")
    ∧ extractNumberFractions "no digits here" = [] :=
  ⟨rfl, rfl, rfl, rfl, by decide, rfl⟩

/-- **C10**: a display name that cleans to the empty string (absent, or with
no ASCII letter or digit) makes the name check award 20 exactly when any
fragment of length at least 4 exists, because the empty cleaned name is a
substring of every fragment. -/
theorem C10_empty_clean_name (card : Card)
    (hname : ∀ c ∈ (card.name.getD "").data, (c.isAlpha || c.isDigit) = false) :
    clean_text (card.name.getD "") = ""
    ∧ (∀ t : String, substrOf (clean_text (card.name.getD "")) t = true)
    ∧ (∀ ts : List String,
        nameLoop (clean_text (card.name.getD "")) ts = 20 ↔ ∃ t ∈ ts, 4 ≤ t.length) := by
  have hempty := clean_text_eq_empty hname
  refine ⟨hempty, ?_, ?_⟩
  · intro t
    rw [hempty]
    exact substrOf_empty_left t
  · intro ts
    rw [hempty, nameLoop_eq]
    have key : ∀ t : String, nameQualifies "" t = true ↔ 4 ≤ t.length := by
      intro t
      rw [nameQualifies, substrOf_empty_left]
      simp
    by_cases h : ∃ t ∈ ts, nameQualifies "" t = true
    · rw [if_pos h]
      constructor
      · intro _
        rcases h with ⟨t, ht, hq⟩
        exact ⟨t, ht, (key t).mp hq⟩
      · intro _
        rfl
    · rw [if_neg h]
      constructor
      · intro h0
        omega
      · rintro ⟨t, ht, h4⟩
        exact (h ⟨t, ht, (key t).mpr h4⟩).elim

/-- Witness for C10: a card named `"★♦!"` cleans to the empty name and gets
the name bonus from the unrelated fragment `"abcd"`. -/
theorem C10_empty_clean_name_witness :
    (∀ c ∈ ((w10Card.name.getD "")).data, (c.isAlpha || c.isDigit) = false)
    ∧ clean_text (w10Card.name.getD "") = ""
    ∧ nameLoop (clean_text (w10Card.name.getD "")) ["abcd"] = 20 := by
  have h : ∀ c ∈ (w10Card.name.getD "").data, (c.isAlpha || c.isDigit) = false := by
    decide
  obtain ⟨h1, -, h2⟩ := C10_empty_clean_name w10Card h
  exact ⟨h, h1, (h2 ["abcd"]).mpr ⟨"abcd", List.mem_cons_self _ _, by decide⟩⟩

/-- **C4**: every attack whose cleaned name is non-empty and occurs inside a
fragment contributes exactly +10, with no cap (the contribution is 10 times
the number of matching attacks); appending one more matching attack raises
exactly that card's score by exactly 10; and the modification resolves no
other catalog id differently, so no other candidate's score can change. -/
theorem C4_attack_monotonicity :
    (∀ (texts : List String) (l : List Attack),
      attackScore texts l = 10 * l.countP (attackMatches texts))
    ∧ (∀ (fr : List (String × String)) (texts : List String) (card : Card)
        (a : Attack) (l : List Attack),
        attackMatches texts a = true →
        card.attacks = some l →
        scoreCard fr texts { card with attacks := some (l ++ [a]) }
          = scoreCard fr texts card + 10)
    ∧ (∀ (catalog : List Card) (x : String) (a : Attack) (id : String),
        id ≠ x →
        get_full_card_details id (extendAttacks catalog x a)
          = get_full_card_details id catalog) := by
  refine ⟨attackScore_eq_count, ?_, get_full_card_details_extendAttacks⟩
  intro fr texts card a l hm hl
  have hupd : scoreCard fr texts { card with attacks := some (l ++ [a]) }
      = (if fr.isEmpty then 0
          else numberLoop (numberKey card) (totalKey card) fr)
        + nameLoop (clean_text (card.name.getD "")) texts
        + attackScore texts (l ++ [a]) := rfl
  have hcard : scoreCard fr texts card
      = (if fr.isEmpty then 0
          else numberLoop (numberKey card) (totalKey card) fr)
        + nameLoop (clean_text (card.name.getD "")) texts
        + attackScore texts l := by
    rw [scoreCard, attackPart, hl]
  rw [hupd, hcard, attackScore_append, attackScore_cons, if_pos hm,
    show attackScore texts [] = 0 from rfl]
  omega

/-- Witness for C4: a duplicated matching attack pays twice (no cap), adding
it to a card adds exactly 10, and other ids resolve unchanged. -/
theorem C4_attack_monotonicity_witness :
    attackScore ["thundershock"] [w4Atk, w4Atk]
        = 10 * List.countP (attackMatches ["thundershock"]) [w4Atk, w4Atk]
    ∧ attackMatches ["thundershock"] w4Atk = true
    ∧ scoreCard [] ["thundershock"] { w4Card with attacks := some ([] ++ [w4Atk]) }
        = scoreCard [] ["thundershock"] w4Card + 10
    ∧ get_full_card_details "other" (extendAttacks [w4Card, w4Other] "w4" w4Atk)
        = get_full_card_details "other" [w4Card, w4Other] := by
  refine ⟨C4_attack_monotonicity.1 ["thundershock"] [w4Atk, w4Atk], by decide, ?_, ?_⟩
  · exact C4_attack_monotonicity.2.1 [] ["thundershock"] w4Card w4Atk [] (by decide) rfl
  · exact C4_attack_monotonicity.2.2 [w4Card, w4Other] "w4" w4Atk "other" (by decide)

/-- **C2**: whenever several candidates are tied at the maximum score and the
query embedding is available, the scan resolves to the tied candidate at the
first-maximal `1 - cosine` similarity with method
`"Scoring with Image Tie-break"` and the tied top score as confidence; the
selected candidate's similarity is maximal, every candidate before it is
strictly smaller (so exact similarity ties select the first in order); the
tied candidates appear in original candidate order (sort stability); and in
the two-candidate instance the vector-closer entry B wins. -/
theorem C2_image_tiebreak :
    (∀ (inp : ScanInput) (q : List ℝ),
      inp.queryEmbedding = some q →
      2 ≤ (bestCandidates inp).length →
      ∃ card,
        get_full_card_details
          (((bestCandidates inp).getD
              (argmaxIdx ((bestCandidates inp).map (fun c => tieSimilarity q c.2.embedding)))
              dummyCand).2.card_id) inp.catalog = some card
        ∧ scan inp = .resolved card (topScore inp) "Scoring with Image Tie-break"
        ∧ (∀ i, i < (bestCandidates inp).length →
            ((bestCandidates inp).map (fun c => tieSimilarity q c.2.embedding)).getD i 0
              ≤ ((bestCandidates inp).map (fun c => tieSimilarity q c.2.embedding)).getD
                  (argmaxIdx ((bestCandidates inp).map (fun c => tieSimilarity q c.2.embedding))) 0)
        ∧ (∀ i, i < argmaxIdx ((bestCandidates inp).map (fun c => tieSimilarity q c.2.embedding)) →
            ((bestCandidates inp).map (fun c => tieSimilarity q c.2.embedding)).getD i 0
              < ((bestCandidates inp).map (fun c => tieSimilarity q c.2.embedding)).getD
                  (argmaxIdx ((bestCandidates inp).map (fun c => tieSimilarity q c.2.embedding))) 0))
    ∧ (∀ inp : ScanInput,
        bestCandidates inp
          = (scoredCandidates inp).filter (fun c => decide (c.1 = topScore inp)))
    ∧ (∀ (inp : ScanInput) (q : List ℝ) (a b : Nat × IndexEntry) (cardB : Card),
        inp.queryEmbedding = some q →
        bestCandidates inp = [a, b] →
        tieSimilarity q a.2.embedding < tieSimilarity q b.2.embedding →
        get_full_card_details b.2.card_id inp.catalog = some cardB →
        scan inp = .resolved cardB (topScore inp) "Scoring with Image Tie-break") := by
  refine ⟨?_, bestCandidates_eq_filter, ?_⟩
  · intro inp q hq hlen
    obtain ⟨card, hcd, hscan⟩ := scan_tie_resolved hlen hq
    refine ⟨card, hcd, hscan, ?_, ?_⟩
    · intro i hi
      exact argmaxIdx_is_max _ 0 i (by simpa using hi)
    · intro i hi
      exact argmaxIdx_is_first _ 0 i hi
  · intro inp q a b cardB hq hbest hsim hcd
    have hlen : 2 ≤ (bestCandidates inp).length := by
      rw [hbest]
      exact le_refl 2
    obtain ⟨card, hcd', hscan⟩ := scan_tie_resolved hlen hq
    have hmap : (bestCandidates inp).map (fun c => tieSimilarity q c.2.embedding)
        = [tieSimilarity q a.2.embedding, tieSimilarity q b.2.embedding] := by
      rw [hbest]
      rfl
    have hidx : argmaxIdx ((bestCandidates inp).map (fun c => tieSimilarity q c.2.embedding))
        = 1 := by
      rw [hmap, argmaxIdx_pair, if_pos hsim]
    rw [hidx] at hcd'
    have hchosen : (bestCandidates inp).getD 1 dummyCand = b := by
      rw [hbest]
      rfl
    rw [hchosen] at hcd'
    rw [hcd] at hcd'
    have hcards : cardB = card := Option.some.inj hcd'
    rw [hscan, hcards]

/-- Witness for C2: two candidates tied at 20; the query vector `[0, 1]`
matches entry B's stored vector and B's card wins the tie-break. -/
theorem C2_image_tiebreak_witness :
    bestCandidates w2Inp = [(20, wTieEntryA), (20, wTieEntryB)]
    ∧ tieSimilarity [0, 1] wTieEntryA.embedding
        < tieSimilarity [0, 1] wTieEntryB.embedding
    ∧ scan w2Inp = .resolved wTieCardB (topScore w2Inp) "Scoring with Image Tie-break" := by
  have hbest : bestCandidates w2Inp = [(20, wTieEntryA), (20, wTieEntryB)] := rfl
  have hsim : tieSimilarity [0, 1] wTieEntryA.embedding
      < tieSimilarity [0, 1] wTieEntryB.embedding := by
    show tieSimilarity [0, 1] [1, 0] < tieSimilarity [0, 1] [0, 1]
    have hq : l2norm ([0, 1] : List ℝ) = 1 := by
      rw [l2norm, show dotList ([0, 1] : List ℝ) [0, 1] = 1 by norm_num [dotList]]
      exact Real.sqrt_one
    have ha : l2norm ([1, 0] : List ℝ) = 1 := by
      rw [l2norm, show dotList ([1, 0] : List ℝ) [1, 0] = 1 by norm_num [dotList]]
      exact Real.sqrt_one
    rw [tieSimilarity, tieSimilarity, cosineDistance, cosineDistance, hq, ha]
    norm_num [dotList]
  exact ⟨hbest, hsim,
    C2_image_tiebreak.2.2 w2Inp [0, 1] (20, wTieEntryA) (20, wTieEntryB) wTieCardB
      rfl hbest hsim rfl⟩

/-- **C9**: for unit-L2-norm vectors, the tie-break similarity (one minus
cosine distance) equals the dot product used by the full-index similarity
search, so the two query paths agree in value and in ranking. -/
theorem C9_similarity_refinement (u v : List ℝ)
    (hu : l2norm u = 1) (hv : l2norm v = 1) :
    tieSimilarity u v = searchSimilarity v u
    ∧ (∀ a b : List ℝ, l2norm a = 1 → l2norm b = 1 →
        (tieSimilarity u a ≤ tieSimilarity u b
          ↔ searchSimilarity a u ≤ searchSimilarity b u)) := by
  constructor
  · rw [tieSimilarity_eq_dot hu hv, searchSimilarity, dotList_comm]
  · intro a b ha hb
    rw [tieSimilarity_eq_dot hu ha, tieSimilarity_eq_dot hu hb,
      searchSimilarity, searchSimilarity, dotList_comm u a, dotList_comm u b]

/-- Witness for C9: the unit vectors `[1, 0]` and `[0, 1]`. -/
theorem C9_similarity_refinement_witness :
    l2norm ([1, 0] : List ℝ) = 1
    ∧ l2norm ([0, 1] : List ℝ) = 1
    ∧ tieSimilarity [1, 0] [0, 1] = searchSimilarity [0, 1] [1, 0] := by
  have h1 : l2norm ([1, 0] : List ℝ) = 1 := by
    rw [l2norm, show dotList ([1, 0] : List ℝ) [1, 0] = 1 by norm_num [dotList]]
    exact Real.sqrt_one
  have h2 : l2norm ([0, 1] : List ℝ) = 1 := by
    rw [l2norm, show dotList ([0, 1] : List ℝ) [0, 1] = 1 by norm_num [dotList]]
    exact Real.sqrt_one
  exact ⟨h1, h2, (C9_similarity_refinement [1, 0] [0, 1] h1 h2).1⟩

end CatchThemAll
